import Mathlib

/-!
# Verification of the `plan` package of plan-change-capturer

Shallow embedding of `src/plan/parse.go` and `src/plan/plan.go` into Lean 4,
with theorems settling the claims about the parser, the tree builder, the
operator classifier and the plan comparator.

Modelling conventions:
* Go strings are Lean `String`s; all column arithmetic that the Go code does
  on `[]rune` is done here on `String.toList` (code points), as in the source.
* `strings.Contains` is byte-substring search; for the ASCII needles used by
  this program it coincides with code-point infix search, which is how we
  model it.  `strings.ToLower` is modelled with Lean's ASCII `String.toLower`
  (the program only distinguishes ASCII letters).
* Fallible Go functions returning `(T, error)` become `GoResult T`; a Go
  runtime panic (slice out of range, failed type assertion) is modelled by
  the explicit `GoResult.panic` outcome (or `Option.none` for helpers).
* `float64` fields (`estRow`) are never inspected by any code under
  verification; they are modelled as `Rat`.
-/

namespace PCC

/-- Outcome of a Go function returning `(T, error)`: a value, an error
message, or a runtime panic. -/
inductive GoResult (α : Type) where
  | ok (val : α)
  | err (msg : String)
  | panic
deriving DecidableEq

/-- Go `plan.OpType` from `src/plan/plan.go` (the `OpTypePointGet` constant is
declared in a repository file outside `src/`; its existence is implied by
`MatchOpType` in `src/plan/parse.go`). -/
inductive OpType where
  | unknown
  | hashJoin
  | indexJoin
  | mergeJoin
  | selection
  | projection
  | tableReader
  | tableScan
  | indexReader
  | indexScan
  | indexLookup
  | pointGet
deriving DecidableEq

def OpTypeUnknown : OpType := .unknown
def OpTypeHashJoin : OpType := .hashJoin
def OpTypeIndexJoin : OpType := .indexJoin
def OpTypeMergeJoin : OpType := .mergeJoin
def OpTypeSelection : OpType := .selection
def OpTypeProjection : OpType := .projection
def OpTypeTableReader : OpType := .tableReader
def OpTypeTableScan : OpType := .tableScan
def OpTypeIndexReader : OpType := .indexReader
def OpTypeIndexScan : OpType := .indexScan
def OpTypeIndexLookup : OpType := .indexLookup
def OpTypePointGet : OpType := .pointGet

/-- Go `plan.JoinType` from `src/plan/plan.go`. -/
inductive JoinType where
  | unknown
  | inner
  | leftOuter
  | rightOuter
  | semi
  | antiSemi
  | leftOuterSemi
  | antiLeftOuterSemi
deriving DecidableEq

/-- Go `plan.TaskType` from `src/plan/plan.go`. -/
inductive TaskType where
  | root
  | tikv
  | tiflash
deriving DecidableEq

def TaskTypeRoot : TaskType := .root
def TaskTypeTiKV : TaskType := .tikv
def TaskTypeTiFlash : TaskType := .tiflash

/-- The variant-specific payload of an operator: which Go struct embeds
`BaseOp` and which extra fields it carries.  `base` stands for all structs
with no extra field read by `compare` (`TableReaderOp`, `IndexReaderOp`,
`IndexLookupOp`, `SelectionOp`, `ProjectionOp`, ...); the three join structs
carry a `JoinType`; `TableScanOp` and `IndexScanOp` carry the fields the
comparator reads. -/
inductive OpPayload where
  | base
  | join (joinType : JoinType)
  | tableScan (table : String)
  | indexScan (table : String) (index : String)
deriving DecidableEq

/-- A `plan.Operator` value: the `BaseOp` fields from `src/plan/plan.go`
(`id`, `opType`, `estRow`, `task`, `children`) together with the dynamic
type's payload.  `estRow` is `float64` in Go; no code under verification
reads it, it is modelled as `Rat`. -/
inductive Operator where
  | mk (id : String) (opType : OpType) (estRow : Rat) (task : TaskType)
       (payload : OpPayload) (children : List Operator)

/-- Go `BaseOp.ID`. -/
def Operator.id : Operator → String
  | .mk i _ _ _ _ _ => i

/-- Go `BaseOp.Type`. -/
def Operator.opType : Operator → OpType
  | .mk _ t _ _ _ _ => t

/-- Go `BaseOp.EstRow`. -/
def Operator.estRow : Operator → Rat
  | .mk _ _ e _ _ _ => e

/-- Go `BaseOp.Task`. -/
def Operator.task : Operator → TaskType
  | .mk _ _ _ tk _ _ => tk

/-- The dynamic type's payload. -/
def Operator.payload : Operator → OpPayload
  | .mk _ _ _ _ p _ => p

/-- Go `BaseOp.Children`. -/
def Operator.children : Operator → List Operator
  | .mk _ _ _ _ _ c => c

/-- Go `plan.Plan` from `src/plan/plan.go` (`Ver` is the Go string type
`PlanVer`). -/
structure Plan where
  SQL : String
  Ver : String
  Root : Operator

/-- The version-tag constants of `src/plan/plan.go`. -/
def V3 : String := "v3"

def V4 : String := "v4"

def VUnknown : String := "unknown"

/-- Go `strings.Contains pat s` (byte-substring search; equal to code-point
infix search for the ASCII patterns this program uses). -/
def strContains (s pat : String) : Bool :=
  decide (pat.toList <:+: s.toList)

/-- Go `strings.ToLower`, restricted to ASCII case mapping (the only case
distinction this program relies on); defined over the code-point list so
that it reduces definitionally. -/
def strToLower (s : String) : String :=
  ⟨s.data.map Char.toLower⟩

/-- Go `plan.MatchOpType` from `src/plan/parse.go` lines 190-230. -/
def MatchOpType (opID : String) : OpType :=
  let x := strToLower opID
  if strContains x "join" then
    if strContains x "hash" then OpTypeHashJoin
    else if strContains x "merge" then OpTypeMergeJoin
    else if strContains x "index" then OpTypeIndexJoin
    else OpTypeUnknown
  else if strContains x "table" then
    if strContains x "reader" then OpTypeTableReader
    else if strContains x "scan" then OpTypeTableScan
    else OpTypeUnknown
  else if strContains x "index" then
    if strContains x "reader" then OpTypeIndexReader
    else if strContains x "scan" then OpTypeIndexScan
    else if strContains x "lookup" then OpTypeIndexLookup
    else OpTypeUnknown
  else if strContains x "selection" then OpTypeSelection
  else if strContains x "projection" then OpTypeProjection
  else if strContains x "point" then OpTypePointGet
  else OpTypeUnknown

/-- The classification cascade exactly as the specification words it
(§4.5): first match wins among the families "join", "table", "index",
"selection", "projection", "point", with sub-rules evaluated only within
the matched family. -/
def matchOpTypeSpecJoinFamily (x : String) : OpType :=
  if strContains x "hash" then OpTypeHashJoin
  else if strContains x "merge" then OpTypeMergeJoin
  else if strContains x "index" then OpTypeIndexJoin
  else OpTypeUnknown

def matchOpTypeSpecTableFamily (x : String) : OpType :=
  if strContains x "reader" then OpTypeTableReader
  else if strContains x "scan" then OpTypeTableScan
  else OpTypeUnknown

def matchOpTypeSpecIndexFamily (x : String) : OpType :=
  if strContains x "reader" then OpTypeIndexReader
  else if strContains x "scan" then OpTypeIndexScan
  else if strContains x "lookup" then OpTypeIndexLookup
  else OpTypeUnknown

/-- The whole §4.5 type-classification table as the specification states
it, over the lower-cased canonical identifier. -/
def matchOpTypeSpec (opID : String) : OpType :=
  let x := strToLower opID
  if strContains x "join" then matchOpTypeSpecJoinFamily x
  else if strContains x "table" then matchOpTypeSpecTableFamily x
  else if strContains x "index" then matchOpTypeSpecIndexFamily x
  else if strContains x "selection" then OpTypeSelection
  else if strContains x "projection" then OpTypeProjection
  else if strContains x "point" then OpTypePointGet
  else OpTypeUnknown

/-- Go `strings.TrimSpace`, over the code-point list (drop whitespace from both
ends). -/
def strTrim (s : String) : String :=
  ⟨((s.data.dropWhile Char.isWhitespace).reverse.dropWhile Char.isWhitespace).reverse⟩

/-- Go `strings.Split s sep` for a one-code-point separator, over code-point
lists (every separator in this program is a single ASCII character). -/
def splitOnChar (sep : Char) : List Char → List (List Char)
  | [] => [[]]
  | c :: cs =>
    if c = sep then [] :: splitOnChar sep cs
    else
      match splitOnChar sep cs with
      | h :: t => (c :: h) :: t
      | [] => [[c]]

/-- Go `strings.Split` specialised to the single-character separators used by
the program. -/
def strSplitOn (s : String) (sep : Char) : List String :=
  (splitOnChar sep s.data).map (fun l => ⟨l⟩)

/-- Go `strings.TrimSuffix`. -/
def strTrimSuffix (s suffix : String) : String :=
  if suffix.data <:+ s.data then ⟨s.data.take (s.data.length - suffix.data.length)⟩
  else s

/-- The SQL normalization performed by `ParseText` (`src/plan/parse.go`
lines 15-16): `strings.TrimSpace` first, then `strings.TrimSuffix` of one
`";"`. -/
def normalizeSQL (sql : String) : String :=
  strTrimSuffix (strTrim sql) ";"

/-- Go `plan.isSeparateLine` from `src/plan/parse.go` lines 96-107. -/
def isSeparateLine (line : String) : Bool :=
  let l := strTrim line
  if l.data.length = 0 then false
  else l.data.all (fun c => c = '+' || c = '-')

/-- The indices (in ascending order) of the border lines among `lines`,
starting the count at `i`: the scanning loop of `trimAndSplitExplainResult`
(which stops after three hits; taking the first three of all hits is
equivalent). -/
def borderIndices : List String → Nat → List Nat
  | [], _ => []
  | l :: ls, i =>
    if isSeparateLine l then i :: borderIndices ls (i + 1)
    else borderIndices ls (i + 1)

/-- Go `plan.trimAndSplitExplainResult` from `src/plan/parse.go` lines 77-94,
at the level of the already-split line list: find the first three border
lines and return the slice `lines[idx0 : idx2+1]`, or the error
"invalid explain result" when fewer than three exist. -/
def trimAndSplitLines (lines : List String) : GoResult (List String) :=
  match (borderIndices lines 0).take 3 with
  | [i0, _, i2] => .ok ((lines.drop i0).take (i2 + 1 - i0))
  | _ => .err "invalid explain result"

/-- Go `plan.trimAndSplitExplainResult`: split the raw text on newlines, then
extract the bordered block. -/
def trimAndSplitExplainResult (explainResult : String) : GoResult (List String) :=
  trimAndSplitLines (strSplitOn explainResult '\n')

/-- Go `plan.matchVersion` from `src/plan/parse.go` lines 109-117. -/
def matchVersion (version : String) : String :=
  let v := strToLower version
  if strContains v "v3" then V3
  else if strContains v "v4" then V4
  else VUnknown

/-- Go `plan.identifyVersion` from `src/plan/parse.go` lines 119-124. -/
def identifyVersion (header : String) : String :=
  if strContains header "estRows" then V4
  else V3

/-- One iteration of `plan.splitRows`: split the row on `|` and take
`cols[1 : len(cols)-1]`.  When the row contains no `|` at all, `cols` has
length 1 and the Go slice expression `cols[1:0]` panics (`none`). -/
def splitRow (row : String) : Option (List String) :=
  let cols := strSplitOn row '|'
  if 2 ≤ cols.length then some ((cols.drop 1).take (cols.length - 2))
  else none

/-- Go `plan.splitRows` from `src/plan/parse.go` lines 126-134 (`none` models
the Go panic on a row without any `|`). -/
def splitRows (rows : List String) : Option (List (List String)) :=
  rows.mapM splitRow

/-- Go `plan.Parse` from `src/plan/parse.go` lines 22-34.  The two
dialect-specific assemblers `ParseV3`/`ParseV4` are declared in repository
files outside `src/`; `Parse` is parametric in them, which fixes none of
their behaviour. -/
def Parse (pv3 pv4 : String → List (List String) → GoResult Plan)
    (version sql : String) (explainRows : List (List String)) : GoResult Plan :=
  let ver := matchVersion version
  if ver = VUnknown then .err ("unknown version " ++ version)
  else if ver = V3 then pv3 sql explainRows
  else if ver = V4 then pv4 sql explainRows
  else .err ("unsupported TiDB version " ++ ver)

/-- Go `plan.ParseText` from `src/plan/parse.go` lines 10-20, parametric in
the out-of-`src/` assemblers.  The Go slice expression
`explainLines[3 : len(explainLines)-1]` panics when the extracted block has
exactly 3 lines (`3 > len-1`), and `splitRows` panics on a row without `|`;
both panics are modelled by `.panic`. -/
def ParseText (pv3 pv4 : String → List (List String) → GoResult Plan)
    (sql explainText : String) : GoResult Plan :=
  match trimAndSplitExplainResult explainText with
  | .err e => .err e
  | .panic => .panic
  | .ok explainLines =>
    let sql1 := normalizeSQL sql
    let ver := identifyVersion (explainLines.getD 1 "")
    if 4 ≤ explainLines.length then
      match splitRows ((explainLines.drop 3).take (explainLines.length - 1 - 3)) with
      | none => .panic
      | some rows => Parse pv3 pv4 ver sql1 rows
    else .panic

/-- Is `c` an ASCII uppercase letter?  This is the exact test
`c >= 'A' && c <= 'Z'` of the anchor-column loop in `findChildRowNo`. -/
def isUpperAscii (c : Char) : Bool :=
  'A' ≤ c && c ≤ 'Z'

/-- The scanning loop of `plan.findChildRowNo` (`src/plan/parse.go` lines
148-157) over the rows strictly below the parent, with `i` the absolute row
number of the first element: `├`/`└` at the anchor column records a child,
`│` continues, anything else stops.  `none` models the Go panics on a row
with too few columns or an identifier field with fewer than `col + 1` code
points. -/
def scanChildRows (idColNo col : Nat) : List (List String) → Nat → Option (List Nat)
  | [], _ => some []
  | row :: rest, i =>
    match (row.get? idColNo).bind (fun f => f.data.get? col) with
    | none => none
    | some c =>
      if c = '├' || c = '└' then
        match scanChildRows idColNo col rest (i + 1) with
        | none => none
        | some l => some (i :: l)
      else if c = '│' then scanChildRows idColNo col rest (i + 1)
      else some []

/-- Go `plan.findChildRowNo` from `src/plan/parse.go` lines 136-159.  The
anchor-column loop `for col = range parent` leaves `col` at the index of
the first ASCII uppercase letter, or at `len(parent)-1` when there is none
(and at `0` for an empty field, the only case in which `col >= len(parent)`
holds and `nil` — no children — is returned).  `none` models a Go panic on
an out-of-range row/column access. -/
def findChildRowNo (rows : List (List String)) (parentRowNo idColNo : Nat) :
    Option (List Nat) :=
  match (rows.get? parentRowNo).bind (fun r => r.get? idColNo) with
  | none => none
  | some field =>
    let parent := field.data
    let col := match parent.findIdx? isUpperAscii with
               | some j => j
               | none => parent.length - 1
    if parent.length ≤ col then some []
    else scanChildRows idColNo col (rows.drop (parentRowNo + 1)) (parentRowNo + 1)

/-- Go `plan.splitKVs` from `src/plan/parse.go` lines 167-177, with the Go map
modelled as the ordered list of inserted pairs (see `kvLookup` for the map
reading: the last insertion of a key wins). -/
def splitKVs (kvStr : String) : List (String × String) :=
  (strSplitOn kvStr ',').foldl (fun m kv =>
    match strSplitOn kv ':' with
    | [k, v] => m ++ [(strTrim k, strTrim v)]
    | _ => m) []

/-- Reading the Go map built by `splitKVs`: the value of the last inserted
pair with the given key. -/
def kvLookup (m : List (String × String)) (k : String) : Option String :=
  (m.reverse.find? (fun p => p.1 == k)).map Prod.snd

mutual

/-- Go `plan.compare` from `src/plan/parse.go` lines 43-75.  `none` models a
Go panic: the type assertions `op1.(TableScanOp)` / `op1.(IndexScanOp)`
panic when the dynamic type does not match, and the children loop indexes
`c2[i]` for every `i < len(c1)`. -/
def compare : Operator → Operator → Option (String × Bool)
  | .mk id1 t1 _ task1 p1 c1, .mk id2 t2 _ task2 p2 c2 =>
    if t1 ≠ t2 ∨ task1 ≠ task2 then
      some (id1 ++ " and " ++ id2 ++ " have different types", false)
    else if c1.length ≠ c2.length then
      some (id1 ++ " and " ++ id2 ++ " have different children lengths", false)
    else
      match t1, p1, p2 with
      | .tableScan, .tableScan tb1, .tableScan tb2 =>
        if tb1 ≠ tb2 then
          some (id1 ++ ":" ++ tb1 ++ ", " ++ id2 ++ ":" ++ tb2, false)
        else compareChildren c1 c2
      | .tableScan, _, _ => none
      | .indexScan, .indexScan tb1 ix1, .indexScan tb2 ix2 =>
        if tb1 ≠ tb2 ∨ ix1 ≠ ix2 then
          some (id1 ++ ":" ++ tb1 ++ ", " ++ id2 ++ ":" ++ tb2, false)
        else compareChildren c1 c2
      | .indexScan, _, _ => none
      | _, _, _ => compareChildren c1 c2

/-- The children loop of `plan.compare` (lines 69-73): compare pairwise by
position, return the first difference; an empty first list ends the loop
immediately; a longer first list would index past the end of the second
(Go panic, only reachable with unequal lengths, which the caller has
excluded). -/
def compareChildren : List Operator → List Operator → Option (String × Bool)
  | [], _ => some ("", true)
  | _ :: _, [] => none
  | a :: l1, b :: l2 =>
    match compare a b with
    | none => none
    | some (r, false) => some (r, false)
    | some (_, true) => compareChildren l1 l2

end

/-- Go `plan.Compare` from `src/plan/parse.go` lines 36-41. -/
def Compare (p1 p2 : Plan) : Option (String × Bool) :=
  if p1.SQL ≠ p2.SQL then some ("differentiate SQLs", false)
  else compare p1.Root p2.Root

/-- Does the dynamic type (payload) fit the declared `OpType` in the way
the type assertions of `compare` require?  (`OpTypeTableScan` must be a
`TableScanOp`, `OpTypeIndexScan` an `IndexScanOp`; other types assert
nothing.) -/
def scanPayloadOk (t : OpType) (p : OpPayload) : Bool :=
  match t, p with
  | .tableScan, .tableScan _ => true
  | .tableScan, _ => false
  | .indexScan, .indexScan _ _ => true
  | .indexScan, _ => false
  | _, _ => true

mutual

/-- The well-typedness discipline the dialect assemblers guarantee: every
operator whose `Type()` is `OpTypeTableScan` has dynamic type `TableScanOp`
and every operator whose `Type()` is `OpTypeIndexScan` has dynamic type
`IndexScanOp`, recursively. -/
def wellTyped : Operator → Bool
  | .mk _ t _ _ p c => scanPayloadOk t p && wellTypedList c

def wellTypedList : List Operator → Bool
  | [] => true
  | a :: l => wellTyped a && wellTypedList l

end

/-- Do two payloads agree on every field `compare` reads for operators of
type `t`?  (`Table` for table scans, `Table` and `Index` for index scans;
nothing else — in particular `JoinType` is never read.) -/
def payloadSimilar (t : OpType) (p1 p2 : OpPayload) : Bool :=
  match t, p1, p2 with
  | .tableScan, .tableScan tb1, .tableScan tb2 => decide (tb1 = tb2)
  | .indexScan, .indexScan tb1 ix1, .indexScan tb2 ix2 =>
    decide (tb1 = tb2) && decide (ix1 = ix2)
  | _, _, _ => true

mutual

/-- Structural similarity: identical shape, `OpType` and `TaskLocation` at
every node, and identical `Table`/`Index` on scan nodes — while `ID`,
`EstimatedRowCount` and `JoinType` are left completely free. -/
def similar : Operator → Operator → Bool
  | .mk _ t1 _ task1 p1 c1, .mk _ t2 _ task2 p2 c2 =>
    decide (t1 = t2) && decide (task1 = task2) && payloadSimilar t1 p1 p2 &&
      similarList c1 c2

def similarList : List Operator → List Operator → Bool
  | [], [] => true
  | a :: l1, b :: l2 => similar a b && similarList l1 l2
  | _, _ => false

end

/-! ## Claim C2: operator type classification -/

/-- Claim C2: for every identifier string, `MatchOpType` classifies by
case-insensitive substring matching in the fixed priority order
join → table → index → selection → projection → point (first match wins,
sub-rules evaluated only within the matched family); in particular
"IndexHashJoin_7" → HashJoin (not IndexJoin) and "Foo_1" → Unknown. -/
theorem matchOpType_classification :
    (∀ opID : String, MatchOpType opID = matchOpTypeSpec opID) ∧
    MatchOpType "IndexHashJoin_7" = OpTypeHashJoin ∧
    MatchOpType "Foo_1" = OpTypeUnknown :=
  ⟨fun _ => rfl, by decide, by decide⟩

/-! ## Claim C5: dialect detection -/

/-- Claim C5: `identifyVersion` selects V4 exactly when the header contains
the case-sensitive substring "estRows" and V3 otherwise; `matchVersion`
case-insensitively selects V3 on "v3", else V4 on "v4", else the Unknown
tag, on which `Parse` fails with the unknown-version error and returns no
Plan. -/
theorem version_detection_spec :
    (∀ header : String,
      (strContains header "estRows" = true → identifyVersion header = V4) ∧
      (strContains header "estRows" = false → identifyVersion header = V3)) ∧
    (∀ version : String,
      (strContains (strToLower version) "v3" = true → matchVersion version = V3) ∧
      (strContains (strToLower version) "v3" = false →
        strContains (strToLower version) "v4" = true → matchVersion version = V4) ∧
      (strContains (strToLower version) "v3" = false →
        strContains (strToLower version) "v4" = false →
        matchVersion version = VUnknown)) ∧
    (∀ (pv3 pv4 : String → List (List String) → GoResult Plan)
        (version sql : String) (rows : List (List String)),
      matchVersion version = VUnknown →
      Parse pv3 pv4 version sql rows = .err ("unknown version " ++ version)) := by
  refine ⟨fun header => ⟨fun h => ?_, fun h => ?_⟩,
          fun version => ⟨fun h => ?_, fun h3 h4 => ?_, fun h3 h4 => ?_⟩,
          fun pv3 pv4 version sql rows h => ?_⟩
  · simp [identifyVersion, h]
  · simp [identifyVersion, h]
  · simp [matchVersion, h]
  · simp [matchVersion, h3, h4]
  · simp [matchVersion, h3, h4]
  · simp [Parse, h, VUnknown]

/-- Witness for `version_detection_spec` at concrete inputs. -/
theorem version_detection_witness :
    identifyVersion "| id | estRows | task |" = V4 ∧
    matchVersion "5.7.25-TiDB-v4.0.0" = V4 ∧
    Parse (fun _ _ => .panic) (fun _ _ => .panic) "9.9.9-Other" "select 1" [] =
      .err ("unknown version " ++ "9.9.9-Other") :=
  ⟨(version_detection_spec.1 "| id | estRows | task |").1 (by decide),
   (version_detection_spec.2.1 "5.7.25-TiDB-v4.0.0").2.1 (by decide) (by decide),
   version_detection_spec.2.2 _ _ "9.9.9-Other" "select 1" [] (by decide)⟩

/-! ## Claim C9: key/value attribute extraction -/

/-- The per-entry rule exactly as the claim words it: split the entry on
`:`; keep it iff that yields exactly two parts, trimming key and value. -/
def entryKV (kv : String) : Option (String × String) :=
  match strSplitOn kv ':' with
  | [k, v] => some (strTrim k, strTrim v)
  | _ => none

lemma splitKVs_foldl (l : List String) :
    ∀ acc : List (String × String),
      l.foldl (fun m kv =>
        match strSplitOn kv ':' with
        | [k, v] => m ++ [(strTrim k, strTrim v)]
        | _ => m) acc = acc ++ l.filterMap entryKV := by
  induction l with
  | nil => intro acc; simp
  | cons kv l ih =>
    intro acc
    rcases h : strSplitOn kv ':' with _ | ⟨k, _ | ⟨v, _ | ⟨x, t⟩⟩⟩ <;>
      simp [List.foldl_cons, List.filterMap_cons, entryKV, h, ih]

/-- Claim C9: `splitKVs` splits on `,`, then each entry on `:`; an entry
that does not split into exactly two parts is silently dropped (no error
is possible), each kept entry mapping trimmed key to trimmed value; for
"table:t1, range:[1,2]" the single-colon entry yields "table" → "t1", and
the two-colon entry "a:b:c" contributes nothing. -/
theorem splitKVs_spec :
    (∀ s : String, splitKVs s = (strSplitOn s ',').filterMap entryKV) ∧
    kvLookup (splitKVs "table:t1, range:[1,2]") "table" = some "t1" ∧
    splitKVs "a:b:c" = [] :=
  ⟨fun s => splitKVs_foldl (strSplitOn s ',') [], by decide, by decide⟩

/-! ## Claim C6: SQL normalization -/

lemma head?_dropWhile_not (p : Char → Bool) :
    ∀ (l : List Char) (c : Char), (l.dropWhile p).head? = some c → p c = false := by
  intro l
  induction l with
  | nil => intro c h; simp [List.dropWhile] at h
  | cons a l ih =>
    intro c h
    rw [List.dropWhile_cons] at h
    by_cases hp : p a = true
    · rw [if_pos hp] at h
      exact ih c h
    · rw [if_neg hp] at h
      have ha : a = c := by simpa using h
      subst ha
      exact Bool.eq_false_iff.mpr hp

lemma head?_of_take (l : List Char) (n : Nat) (c : Char) :
    (l.take n).head? = some c → l.head? = some c := by
  cases l with
  | nil => simp
  | cons a t =>
    cases n with
    | zero => simp
    | succ n => simp

/-- The head of `strTrim s` is never whitespace. -/
lemma strTrim_head (s : String) (c : Char) :
    (strTrim s).data.head? = some c → c.isWhitespace = false := by
  intro h
  obtain ⟨u, hu⟩ :=
    List.dropWhile_suffix (l := (s.data.dropWhile Char.isWhitespace).reverse)
      Char.isWhitespace
  have hr : (strTrim s).data =
      ((s.data.dropWhile Char.isWhitespace).reverse.dropWhile Char.isWhitespace).reverse :=
    rfl
  have hl : s.data.dropWhile Char.isWhitespace = (strTrim s).data ++ u.reverse := by
    have h2 := congrArg List.reverse hu
    simp only [List.reverse_append, List.reverse_reverse] at h2
    rw [hr]
    exact h2.symm
  have hhead : (s.data.dropWhile Char.isWhitespace).head? = some c := by
    rw [hl]
    cases hdata : (strTrim s).data with
    | nil => rw [hdata] at h; simp at h
    | cons a t =>
      rw [hdata] at h
      simp only [List.head?_cons, Option.some.injEq] at h
      simp [← h]
  exact head?_dropWhile_not _ _ _ hhead

/-- The last character of `strTrim s` is never whitespace. -/
lemma strTrim_last (s : String) (c : Char) :
    (strTrim s).data.getLast? = some c → c.isWhitespace = false := by
  intro h
  have hr : (strTrim s).data =
      ((s.data.dropWhile Char.isWhitespace).reverse.dropWhile Char.isWhitespace).reverse :=
    rfl
  rw [hr, List.getLast?_reverse] at h
  exact head?_dropWhile_not _ _ _ h

lemma suffix_singleton_iff (a : Char) (l : List Char) :
    [a] <:+ l ↔ l.getLast? = some a := by
  constructor
  · rintro ⟨u, rfl⟩
    exact List.getLast?_concat u
  · intro h
    exact ⟨l.dropLast, List.dropLast_append_getLast? a h⟩

/-- Case analysis of `strTrimSuffix s ";"`. -/
lemma strTrimSuffix_semicolon (s : String) :
    (s.data.getLast? = some ';' → (strTrimSuffix s ";").data = s.data.dropLast) ∧
    (s.data.getLast? ≠ some ';' → strTrimSuffix s ";" = s) := by
  constructor
  · intro h
    have hs : (";" : String).data <:+ s.data := (suffix_singleton_iff ';' s.data).2 h
    simp only [strTrimSuffix, hs, if_true]
    rw [List.dropLast_eq_take]
    rfl
  · intro h
    have hs : ¬ (";" : String).data <:+ s.data := by
      rw [show (";" : String).data = [';'] from rfl, suffix_singleton_iff]
      exact h
    simp only [strTrimSuffix, hs, if_false]

/-- A prefix-taking operation cannot introduce a new head character. -/
lemma strTrimSuffix_head (s suffix : String) (c : Char) :
    (strTrimSuffix s suffix).data.head? = some c → s.data.head? = some c := by
  unfold strTrimSuffix
  split
  · intro h
    exact head?_of_take _ _ _ h
  · exact fun h => h

/-- Claim C6 counterexample: the claim "the stored text has no leading or
trailing whitespace and no trailing semicolon" fails: the whitespace is
trimmed *before* the single trailing ";" is removed, so "select 1 ;"
normalizes to a text ending in a space, and "select 1;;" to a text ending
in a semicolon. -/
theorem normalizeSQL_counterexample :
    normalizeSQL "select 1 ;" = "select 1 " ∧
    (normalizeSQL "select 1 ;").data.getLast? = some ' ' ∧
    normalizeSQL "select 1;;" = "select 1;" ∧
    (normalizeSQL "select 1;;").data.getLast? = some ';' := by
  refine ⟨rfl, by decide, rfl, by decide⟩

/-- Claim C6 (amended): the SQL stored by `ParseText` is the input with its
surrounding whitespace stripped first and then a single trailing ";" (if
any) removed; consequently it never starts with whitespace, and it ends
with whitespace (or another ";") only when that character immediately
preceded the stripped semicolon. -/
theorem normalizeSQL_amended (sql : String) :
    ((strTrim sql).data.getLast? = some ';' →
      (normalizeSQL sql).data = (strTrim sql).data.dropLast) ∧
    ((strTrim sql).data.getLast? ≠ some ';' → normalizeSQL sql = strTrim sql) ∧
    (∀ c, (normalizeSQL sql).data.head? = some c → c.isWhitespace = false) ∧
    ((strTrim sql).data.getLast? ≠ some ';' →
      ∀ c, (normalizeSQL sql).data.getLast? = some c → c.isWhitespace = false) := by
  refine ⟨fun h => (strTrimSuffix_semicolon (strTrim sql)).1 h,
          fun h => (strTrimSuffix_semicolon (strTrim sql)).2 h,
          fun c hc => ?_, fun h c hc => ?_⟩
  · exact strTrim_head sql c (strTrimSuffix_head _ _ _ hc)
  · have he : normalizeSQL sql = strTrim sql := (strTrimSuffix_semicolon (strTrim sql)).2 h
    rw [he] at hc
    exact strTrim_last sql c hc

/-- Witness for `normalizeSQL_amended` at the concrete input
`"  select 1;  "`. -/
theorem normalizeSQL_amended_witness :
    (normalizeSQL "  select 1;  ").data = "select 1".data ∧
    normalizeSQL "  select 2  " = strTrim "  select 2  " := by
  constructor
  · have h := (normalizeSQL_amended "  select 1;  ").1 (by decide)
    rw [h]; decide
  · exact (normalizeSQL_amended "  select 2  ").2.1 (by decide)

/-! ## Claim C4: table extraction -/

lemma borderIndices_cons (x : String) (xs : List String) (k : Nat) :
    borderIndices (x :: xs) k =
      if isSeparateLine x = true then k :: borderIndices xs (k + 1)
      else borderIndices xs (k + 1) := rfl

lemma borderIndices_append (xs ys : List String) :
    ∀ k, borderIndices (xs ++ ys) k =
      borderIndices xs k ++ borderIndices ys (k + xs.length) := by
  induction xs with
  | nil => intro k; simp [borderIndices]
  | cons x xs ih =>
    intro k
    have harith : k + 1 + xs.length = k + (xs.length + 1) := by omega
    by_cases hx : isSeparateLine x = true <;>
      simp [borderIndices_cons, hx, ih (k + 1), harith, List.length_cons]

lemma borderIndices_nil_of (xs : List String) :
    ∀ k, (∀ l ∈ xs, isSeparateLine l = false) → borderIndices xs k = [] := by
  induction xs with
  | nil => intro k _; rfl
  | cons x xs ih =>
    intro k h
    have hx := h x (by simp)
    rw [borderIndices_cons, if_neg (by simp [hx])]
    exact ih (k + 1) (fun l hl => h l (by simp [hl]))

/-- Go `borderIndices` lists exactly the positions of the border lines. -/
lemma mem_borderIndices (xs : List String) :
    ∀ (k i : Nat), i ∈ borderIndices xs k ↔
      ∃ j l, i = k + j ∧ xs.get? j = some l ∧ isSeparateLine l = true := by
  induction xs with
  | nil =>
    intro k i
    simp [borderIndices]
  | cons x xs ih =>
    intro k i
    by_cases hx : isSeparateLine x = true
    · rw [borderIndices_cons, if_pos hx, List.mem_cons, ih (k + 1) i]
      constructor
      · rintro (rfl | ⟨j, l, rfl, hget, hsep⟩)
        · exact ⟨0, x, by omega, rfl, hx⟩
        · exact ⟨j + 1, l, by omega, hget, hsep⟩
      · rintro ⟨j, l, hij, hget, hsep⟩
        cases j with
        | zero => left; omega
        | succ j => right; exact ⟨j, l, by omega, hget, hsep⟩
    · rw [borderIndices_cons, if_neg hx, ih (k + 1) i]
      constructor
      · rintro ⟨j, l, rfl, hget, hsep⟩
        exact ⟨j + 1, l, by omega, hget, hsep⟩
      · rintro ⟨j, l, hij, hget, hsep⟩
        cases j with
        | zero =>
          obtain rfl : x = l := by simpa using hget
          exact absurd hsep hx
        | succ j => exact ⟨j, l, by omega, hget, hsep⟩

lemma trimAndSplitLines_err (lines : List String)
    (h : (borderIndices lines 0).length < 3) :
    trimAndSplitLines lines = .err "invalid explain result" := by
  unfold trimAndSplitLines
  rcases hb : borderIndices lines 0 with _ | ⟨i0, _ | ⟨i1, _ | ⟨i2, rest⟩⟩⟩
  · rfl
  · rfl
  · rfl
  · rw [hb] at h
    simp only [List.length_cons] at h
    omega

lemma trimAndSplitLines_ok (lines : List String) (i0 i1 i2 : Nat) (rest : List Nat)
    (h : borderIndices lines 0 = i0 :: i1 :: i2 :: rest) :
    trimAndSplitLines lines = .ok ((lines.drop i0).take (i2 + 1 - i0)) := by
  unfold trimAndSplitLines
  rw [h]
  rfl

/-- The columns `splitRows` extracts from one scannable row:
`cols[1 : len(cols)-1]`. -/
def rowCols (l : String) : List String :=
  ((strSplitOn l '|').drop 1).take ((strSplitOn l '|').length - 2)

lemma splitRows_eq_map (L : List String)
    (h : ∀ l ∈ L, 2 ≤ (strSplitOn l '|').length) :
    splitRows L = some (L.map rowCols) := by
  induction L with
  | nil => rfl
  | cons l L ih =>
    have hl := h l (by simp)
    have hrest := ih (fun x hx => h x (by simp [hx]))
    simp only [splitRows] at hrest ⊢
    rw [List.mapM_cons, show splitRow l = some (rowCols l) by simp [splitRow, rowCols, hl],
        hrest]
    rfl

/-- Claim C4 counterexample: on `"+\n+\n|b|\n+"` the block has exactly three
border lines (indices 0, 1, 3) and exactly one line strictly between the
second and third border lines, yet `ParseText`'s body-row extraction
(`explainLines[3 : len-1]`) yields zero rows — because no header line
separates the first two borders, "row count = N interior body lines" fails
(0 ≠ 1). -/
theorem tableExtraction_counterexample :
    borderIndices ["+", "+", "|b|", "+"] 0 = [0, 1, 3] ∧
    trimAndSplitExplainResult "+\n+\n|b|\n+" = .ok ["+", "+", "|b|", "+"] ∧
    splitRows (((["+", "+", "|b|", "+"] : List String).drop 3).take (4 - 1 - 3)) =
      some [] ∧
    (((["+", "+", "|b|", "+"] : List String).drop (1 + 1)).take (3 - 1 - 1)).length = 1 :=
  ⟨rfl, rfl, rfl, rfl⟩

/-- Claim C4 (amended): `trimAndSplitExplainResult` scans for the first three
border lines (exactly the lines whose trimmed content is non-empty and all
`+`/`-`) and returns the contiguous slice from the first through the third
inclusive, failing with the format error when fewer than three exist; and
for every block of the standard shape — border, exactly one header line,
border, N scannable body lines, border — body-row extraction yields exactly
N rows, equal to the number of extracted lines minus 4.  (The claim's
unrestricted count property fails when the segment between the first two
border lines is not a single header line, see
`tableExtraction_counterexample`.) -/
theorem tableExtraction_amended :
    (∀ (xs : List String) (i : Nat), i ∈ borderIndices xs 0 ↔
      ∃ j l, i = j ∧ xs.get? j = some l ∧ isSeparateLine l = true) ∧
    (∀ lines : List String, (borderIndices lines 0).length < 3 →
      trimAndSplitLines lines = .err "invalid explain result") ∧
    (∀ (lines : List String) (i0 i1 i2 : Nat) (rest : List Nat),
      borderIndices lines 0 = i0 :: i1 :: i2 :: rest →
      trimAndSplitLines lines = .ok ((lines.drop i0).take (i2 + 1 - i0))) ∧
    (∀ (hline b0 b1 b2 : String) (body : List String),
      isSeparateLine b0 = true → isSeparateLine hline = false →
      isSeparateLine b1 = true → isSeparateLine b2 = true →
      (∀ l ∈ body, isSeparateLine l = false ∧ 2 ≤ (strSplitOn l '|').length) →
      trimAndSplitLines (b0 :: hline :: b1 :: (body ++ [b2])) =
        .ok (b0 :: hline :: b1 :: (body ++ [b2])) ∧
      (b0 :: hline :: b1 :: (body ++ [b2])).length = body.length + 4 ∧
      splitRows (((b0 :: hline :: b1 :: (body ++ [b2])).drop 3).take
          ((b0 :: hline :: b1 :: (body ++ [b2])).length - 1 - 3)) =
        some (body.map rowCols) ∧
      (body.map rowCols).length = body.length) := by
  refine ⟨?_, trimAndSplitLines_err, trimAndSplitLines_ok, ?_⟩
  · intro xs i
    rw [mem_borderIndices xs 0 i]
    constructor
    · rintro ⟨j, l, hij, h1, h2⟩
      exact ⟨j, l, by omega, h1, h2⟩
    · rintro ⟨j, l, hij, h1, h2⟩
      exact ⟨j, l, by omega, h1, h2⟩
  · intro hline b0 b1 b2 body h0 hh h1 h2 hbody
    have e3 : borderIndices (body ++ [b2]) 3 = [3 + body.length] := by
      rw [borderIndices_append body [b2] 3,
          borderIndices_nil_of body 3 (fun l hl => (hbody l hl).1)]
      simp [borderIndices_cons, borderIndices, h2]
    have hB : borderIndices (b0 :: hline :: b1 :: (body ++ [b2])) 0 =
        [0, 2, 3 + body.length] := by
      simp [borderIndices_cons, h0, hh, h1, e3]
    have hlen : (b0 :: hline :: b1 :: (body ++ [b2])).length = body.length + 4 := by
      simp only [List.length_cons, List.length_append, List.length_nil]
    have hok : trimAndSplitLines (b0 :: hline :: b1 :: (body ++ [b2])) =
        .ok (b0 :: hline :: b1 :: (body ++ [b2])) := by
      rw [trimAndSplitLines_ok _ 0 2 (3 + body.length) [] hB]
      congr 1
      rw [List.drop_zero]
      have he : 3 + body.length + 1 - 0 = (b0 :: hline :: b1 :: (body ++ [b2])).length := by
        rw [hlen]; omega
      rw [he, List.take_length]
    have hdrop : (b0 :: hline :: b1 :: (body ++ [b2])).drop 3 = body ++ [b2] := rfl
    have htake : ((body ++ [b2]).take
        ((b0 :: hline :: b1 :: (body ++ [b2])).length - 1 - 3)) = body := by
      rw [hlen]
      have he : body.length + 4 - 1 - 3 = body.length := by omega
      rw [he]
      exact List.take_left body [b2]
    refine ⟨hok, hlen, ?_, by simp⟩
    rw [hdrop, htake]
    exact splitRows_eq_map body (fun l hl => (hbody l hl).2)

/-- Witness for `tableExtraction_amended` on a concrete standard block:
one header line, two body lines. -/
theorem tableExtraction_witness :
    trimAndSplitLines ["+--+", "| id |", "+--+", "| a |", "| b |", "+--+"] =
      .ok ["+--+", "| id |", "+--+", "| a |", "| b |", "+--+"] ∧
    splitRows ((["+--+", "| id |", "+--+", "| a |", "| b |", "+--+"].drop 3).take
        (6 - 1 - 3)) = some [[" a "], [" b "]] := by
  have h := tableExtraction_amended.2.2.2 "| id |" "+--+" "+--+" "+--+" ["| a |", "| b |"]
    (by decide) (by decide) (by decide) (by decide) (by decide)
  refine ⟨h.1, ?_⟩
  have h3 := h.2.2.1
  simpa using h3

/-! ## Claim C1: tree-builder child discovery -/

/-- The scan of the rows below a parent, as §4.4 words it, over the
abstract list of anchor-column characters: `├`/`└` marks a direct child,
`│` continues the scan, anything else stops it; `i` is the absolute row
number of the first scanned row. -/
def childScanSpec (i : Nat) : List Char → List Nat
  | [] => []
  | c :: cs =>
    if c = '├' ∨ c = '└' then i :: childScanSpec (i + 1) cs
    else if c = '│' then childScanSpec (i + 1) cs
    else []

/-- The anchor column as the *amended* claim words it: the code-point
offset of the first ASCII uppercase letter, defaulting to the last offset
when none exists; only an empty field has no anchor. -/
def anchorColAmended (field : String) : Option Nat :=
  if field.data = [] then none
  else some ((field.data.findIdx? isUpperAscii).getD (field.data.length - 1))

/-- The claim's procedure verbatim: anchor at the first *alphabetic*
character; no children at all when no alphabetic character exists. -/
def findChildRowNoClaim (rows : List (List String)) (parentRowNo idColNo : Nat) :
    Option (List Nat) :=
  match (rows.get? parentRowNo).bind (fun r => r.get? idColNo) with
  | none => none
  | some field =>
    match field.data.findIdx? (fun c => c.isAlpha) with
    | none => some []
    | some col =>
      scanChildRows idColNo col (rows.drop (parentRowNo + 1)) (parentRowNo + 1)

/-- Claim C1 counterexample: the code anchors on the first ASCII *uppercase*
letter, not the first alphabetic character, and returns "no children" only
for an empty field.  On `[["ab"], ["├x"]]` the claim's procedure anchors at
offset 0 (`'a'` is alphabetic) and finds child row 1, while the code
anchors at the last offset and finds none; on `[["──"], ["─├"]]` the claim
says "no alphabetic character ⇒ no children", while the code anchors at the
last offset and finds child row 1. -/
theorem findChildRowNo_counterexample :
    findChildRowNo [["ab"], ["├x"]] 0 0 = some [] ∧
    findChildRowNoClaim [["ab"], ["├x"]] 0 0 = some [1] ∧
    findChildRowNo [["──"], ["─├"]] 0 0 = some [1] ∧
    findChildRowNoClaim [["──"], ["─├"]] 0 0 = some [] :=
  ⟨rfl, rfl, rfl, rfl⟩

/-- When every row below has a readable character at the anchor column, the
scanning loop computes exactly the §4.4 child scan of the anchor-column
characters. -/
lemma scanChildRows_spec (idc col : Nat) :
    ∀ (rest : List (List String)) (i : Nat),
      (∀ row ∈ rest, ((row.get? idc).bind (fun f => f.data.get? col)).isSome = true) →
      scanChildRows idc col rest i =
        some (childScanSpec i (rest.map
          (fun row => ((row.get? idc).bind (fun f => f.data.get? col)).getD ' '))) := by
  intro rest
  induction rest with
  | nil => intro i _; rfl
  | cons row rest ih =>
    intro i h
    have hrow := h row (by simp)
    obtain ⟨c, hbind⟩ : ∃ c, ((row.get? idc).bind (fun f => f.data.get? col)) = some c := by
      cases hb : ((row.get? idc).bind (fun f => f.data.get? col)) with
      | none => rw [hb] at hrow; simp at hrow
      | some c => exact ⟨c, rfl⟩
    have hrest := ih (i + 1) (fun r hr => h r (by simp [hr]))
    simp only [List.get?_eq_getElem?] at hbind
    by_cases h1 : c = '├'
    · subst h1
      simp [scanChildRows, hbind, hrest, childScanSpec]
    · by_cases h2 : c = '└'
      · subst h2
        simp [scanChildRows, hbind, hrest, childScanSpec]
      · by_cases h3 : c = '│'
        · subst h3
          simp [scanChildRows, hbind, hrest, childScanSpec]
        · simp [scanChildRows, hbind, childScanSpec, h1, h2, h3]

lemma findIdx?_bound (p : Char → Bool) :
    ∀ (l : List Char) (i j : Nat), List.findIdx? p l i = some j → j < i + l.length := by
  intro l
  induction l with
  | nil => intro i j h; simp [List.findIdx?] at h
  | cons a l ih =>
    intro i j h
    rw [List.findIdx?_cons] at h
    by_cases hp : p a = true
    · rw [if_pos hp] at h
      obtain rfl : i = j := by simpa using h
      simp only [List.length_cons]
      omega
    · rw [if_neg hp] at h
      have hb := ih (i + 1) j h
      simp only [List.length_cons]
      omega

lemma findChildRowNo_eq (rows : List (List String)) (p idc : Nat) :
    findChildRowNo rows p idc =
      match (rows.get? p).bind (fun r => r.get? idc) with
      | none => none
      | some field =>
        if field.data.length ≤ (match field.data.findIdx? isUpperAscii with
            | some j => j
            | none => field.data.length - 1) then some []
        else scanChildRows idc (match field.data.findIdx? isUpperAscii with
            | some j => j
            | none => field.data.length - 1) (rows.drop (p + 1)) (p + 1) := rfl

/-- Claim C1 (amended): the anchor column is the code-point offset of the
first ASCII *uppercase* letter (`'A'`–`'Z'`) of the parent's
identifier-column field, defaulting to the field's last code-point offset
when no uppercase letter exists; only an *empty* field yields no children;
scanning the rows strictly below the parent, `├`/`└` at the anchor column
marks a direct child, `│` continues past deeper descendants, and any other
character stops the scan (children recorded in ascending row order). -/
theorem findChildRowNo_amended (rows : List (List String)) (p idc : Nat) (field : String)
    (hf : (rows.get? p).bind (fun r => r.get? idc) = some field) :
    (anchorColAmended field = none → findChildRowNo rows p idc = some []) ∧
    (∀ col, anchorColAmended field = some col →
      (∀ row ∈ rows.drop (p + 1),
        ((row.get? idc).bind (fun f => f.data.get? col)).isSome = true) →
      findChildRowNo rows p idc =
        some (childScanSpec (p + 1) ((rows.drop (p + 1)).map
          (fun row => ((row.get? idc).bind (fun f => f.data.get? col)).getD ' ')))) := by
  constructor
  · intro hanchor
    rw [findChildRowNo_eq]
    simp only [hf]
    unfold anchorColAmended at hanchor
    by_cases hempty : field.data = []
    · rw [hempty]
      rfl
    · rw [if_neg hempty] at hanchor
      simp at hanchor
  · intro col hanchor hrows
    rw [findChildRowNo_eq]
    simp only [hf]
    unfold anchorColAmended at hanchor
    by_cases hempty : field.data = []
    · rw [if_pos hempty] at hanchor
      simp at hanchor
    · rw [if_neg hempty] at hanchor
      have hcol : (field.data.findIdx? isUpperAscii).getD (field.data.length - 1) = col :=
        Option.some.inj hanchor
      have hpos : 0 < field.data.length := by
        cases hd : field.data with
        | nil => exact absurd hd hempty
        | cons a t => simp [hd]
      cases hidx : field.data.findIdx? isUpperAscii with
      | none =>
        rw [hidx, Option.getD_none] at hcol
        dsimp only
        rw [if_neg (show ¬ field.data.length ≤ field.data.length - 1 by omega), hcol]
        exact scanChildRows_spec idc col _ (p + 1) hrows
      | some j =>
        rw [hidx, Option.getD_some] at hcol
        subst hcol
        have hjlt : j < field.data.length := by
          have hb := findIdx?_bound isUpperAscii field.data 0 j hidx
          omega
        dsimp only
        rw [if_neg (by omega)]
        exact scanChildRows_spec idc j _ (p + 1) hrows

/-- Witness for `findChildRowNo_amended` on a three-row block whose parent
has two direct children. -/
theorem findChildRowNo_amended_witness :
    findChildRowNo [["T1"], ["├─A2"], ["└─B3"]] 0 0 = some [1, 2] := by
  have h := (findChildRowNo_amended [["T1"], ["├─A2"], ["└─B3"]] 0 0 "T1" rfl).2 0
    (by decide) (by decide)
  rw [h]
  rfl

/-! ## Claims C3, C7, C8, C10: the comparator and parse-error handling -/

/-- Claim C7: `ParseText` does return the format error when fewer than three
border lines exist; but on a block of three border lines with nothing
between them (`"+\n+\n+"`, where the Go slice `explainLines[3:len-1]` has
`low 3 > high 2`), and on a block whose body row contains no `|` (where
`cols[1:0]` has `low 1 > high 0`), the Go code *panics* with a slice
bounds violation instead of returning a FormatError — for any assembler
implementations. -/
theorem parseText_corruption_behaviour :
    (∀ pv3 pv4, ParseText pv3 pv4 "select 1" "no borders here" =
      .err "invalid explain result") ∧
    (∀ pv3 pv4, ParseText pv3 pv4 "select 1" "+\n+\n+" = .panic) ∧
    (∀ pv3 pv4, ParseText pv3 pv4 "select 1" "+--+\n|id|\n+--+\nnopipe\n+--+" =
      .panic) :=
  ⟨fun _ _ => rfl, fun _ _ => rfl, fun _ _ => rfl⟩

/-- One-step unfolding of `compare` (definitional). -/
lemma compare_mk (id1 : String) (t1 : OpType) (e1 : Rat) (task1 : TaskType)
    (p1 : OpPayload) (c1 : List Operator)
    (id2 : String) (t2 : OpType) (e2 : Rat) (task2 : TaskType)
    (p2 : OpPayload) (c2 : List Operator) :
    compare (.mk id1 t1 e1 task1 p1 c1) (.mk id2 t2 e2 task2 p2 c2) =
      if t1 ≠ t2 ∨ task1 ≠ task2 then
        some (id1 ++ " and " ++ id2 ++ " have different types", false)
      else if c1.length ≠ c2.length then
        some (id1 ++ " and " ++ id2 ++ " have different children lengths", false)
      else
        match t1, p1, p2 with
        | .tableScan, .tableScan tb1, .tableScan tb2 =>
          if tb1 ≠ tb2 then
            some (id1 ++ ":" ++ tb1 ++ ", " ++ id2 ++ ":" ++ tb2, false)
          else compareChildren c1 c2
        | .tableScan, _, _ => none
        | .indexScan, .indexScan tb1 ix1, .indexScan tb2 ix2 =>
          if tb1 ≠ tb2 ∨ ix1 ≠ ix2 then
            some (id1 ++ ":" ++ tb1 ++ ", " ++ id2 ++ ":" ++ tb2, false)
          else compareChildren c1 c2
        | .indexScan, _, _ => none
        | _, _, _ => compareChildren c1 c2 := rfl

/-- One-step unfolding of the children loop (definitional). -/
lemma compareChildren_cons (a b : Operator) (l1 l2 : List Operator) :
    compareChildren (a :: l1) (b :: l2) =
      match compare a b with
      | none => none
      | some (r, false) => some (r, false)
      | some (_, true) => compareChildren l1 l2 := rfl

lemma similarList_length :
    ∀ l1 l2 : List Operator, similarList l1 l2 = true → l1.length = l2.length := by
  intro l1
  induction l1 with
  | nil =>
    intro l2 h
    cases l2 with
    | nil => rfl
    | cons b t => simp [similarList] at h
  | cons a l1 ih =>
    intro l2 h
    cases l2 with
    | nil => simp [similarList] at h
    | cons b l2 =>
      have h2 : similarList l1 l2 = true := by
        simp [similarList, Bool.and_eq_true] at h
        exact h.2
      simp [List.length_cons, ih l2 h2]

/-- On well-typed, similar operators `compare` succeeds with the
"same" verdict and an empty reason (strong induction on the tree size,
jointly with the children loop). -/
lemma compare_similar_aux :
    ∀ n : Nat,
      (∀ op1 op2 : Operator, sizeOf op1 ≤ n → wellTyped op1 = true →
        wellTyped op2 = true → similar op1 op2 = true →
        compare op1 op2 = some ("", true)) ∧
      (∀ l1 l2 : List Operator, sizeOf l1 ≤ n → wellTypedList l1 = true →
        wellTypedList l2 = true → similarList l1 l2 = true →
        compareChildren l1 l2 = some ("", true)) := by
  intro n
  induction n using Nat.strong_induction_on with
  | _ n ih =>
    constructor
    · intro op1 op2 hsz hw1 hw2 hsim
      obtain ⟨id1, t1, e1, task1, p1, c1⟩ := op1
      obtain ⟨id2, t2, e2, task2, p2, c2⟩ := op2
      have hsim' : (t1 = t2 ∧ task1 = task2) ∧ payloadSimilar t1 p1 p2 = true ∧
          similarList c1 c2 = true := by
        simpa [similar, Bool.and_eq_true, decide_eq_true_eq, and_assoc] using hsim
      obtain ⟨⟨ht, htask⟩, hpay, hkids⟩ := hsim'
      have hw1' : scanPayloadOk t1 p1 = true ∧ wellTypedList c1 = true := by
        simpa [wellTyped, Bool.and_eq_true] using hw1
      have hw2' : scanPayloadOk t2 p2 = true ∧ wellTypedList c2 = true := by
        simpa [wellTyped, Bool.and_eq_true] using hw2
      obtain ⟨hpay1, hkids1⟩ := hw1'
      obtain ⟨hpay2, hkids2⟩ := hw2'
      have hlen := similarList_length c1 c2 hkids
      have hszc : sizeOf c1 < sizeOf (Operator.mk id1 t1 e1 task1 p1 c1) := by
        simp only [Operator.mk.sizeOf_spec]
        omega
      have hchildren : compareChildren c1 c2 = some ("", true) :=
        (ih (sizeOf c1) (by omega)).2 c1 c2 le_rfl hkids1 hkids2 hkids
      subst ht
      subst htask
      rw [compare_mk]
      rw [if_neg (by simp)]
      rw [if_neg (by simp [hlen])]
      cases t1 with
      | unknown => exact hchildren
      | hashJoin => exact hchildren
      | indexJoin => exact hchildren
      | mergeJoin => exact hchildren
      | selection => exact hchildren
      | projection => exact hchildren
      | tableReader => exact hchildren
      | indexReader => exact hchildren
      | indexLookup => exact hchildren
      | pointGet => exact hchildren
      | tableScan =>
        cases p1 with
        | tableScan tb1 =>
          cases p2 with
          | tableScan tb2 =>
            have htb : tb1 = tb2 := by
              simpa [payloadSimilar, decide_eq_true_eq] using hpay
            dsimp only
            rw [if_neg (by simp [htb])]
            exact hchildren
          | base => simp [scanPayloadOk] at hpay2
          | join jt => simp [scanPayloadOk] at hpay2
          | indexScan a b => simp [scanPayloadOk] at hpay2
        | base => simp [scanPayloadOk] at hpay1
        | join jt => simp [scanPayloadOk] at hpay1
        | indexScan a b => simp [scanPayloadOk] at hpay1
      | indexScan =>
        cases p1 with
        | indexScan tb1 ix1 =>
          cases p2 with
          | indexScan tb2 ix2 =>
            have htb : tb1 = tb2 ∧ ix1 = ix2 := by
              simpa [payloadSimilar, Bool.and_eq_true, decide_eq_true_eq] using hpay
            dsimp only
            rw [if_neg (by simp [htb.1, htb.2])]
            exact hchildren
          | base => simp [scanPayloadOk] at hpay2
          | join jt => simp [scanPayloadOk] at hpay2
          | tableScan a => simp [scanPayloadOk] at hpay2
        | base => simp [scanPayloadOk] at hpay1
        | join jt => simp [scanPayloadOk] at hpay1
        | tableScan a => simp [scanPayloadOk] at hpay1
    · intro l1 l2 hsz hw1 hw2 hsim
      cases l1 with
      | nil =>
        cases l2 with
        | nil => rfl
        | cons b t => simp [similarList] at hsim
      | cons a l1 =>
        cases l2 with
        | nil => simp [similarList] at hsim
        | cons b l2 =>
          have hsim' : similar a b = true ∧ similarList l1 l2 = true := by
            simpa [similarList, Bool.and_eq_true] using hsim
          have hw1' : wellTyped a = true ∧ wellTypedList l1 = true := by
            simpa [wellTypedList, Bool.and_eq_true] using hw1
          have hw2' : wellTyped b = true ∧ wellTypedList l2 = true := by
            simpa [wellTypedList, Bool.and_eq_true] using hw2
          have hcons : sizeOf a < sizeOf (a :: l1) ∧ sizeOf l1 < sizeOf (a :: l1) := by
            simp only [List.cons.sizeOf_spec]
            omega
          have hab : compare a b = some ("", true) :=
            (ih (sizeOf a) (by omega)).1 a b le_rfl hw1'.1 hw2'.1 hsim'.1
          have hrest : compareChildren l1 l2 = some ("", true) :=
            (ih (sizeOf l1) (by omega)).2 l1 l2 le_rfl hw1'.2 hw2'.2 hsim'.2
          rw [compareChildren_cons, hab]
          exact hrest

/-- Similar well-typed trees compare as "same" with an empty reason. -/
lemma compare_of_similar (op1 op2 : Operator) (hw1 : wellTyped op1 = true)
    (hw2 : wellTyped op2 = true) (hsim : similar op1 op2 = true) :
    compare op1 op2 = some ("", true) :=
  (compare_similar_aux (sizeOf op1)).1 op1 op2 le_rfl hw1 hw2 hsim

/-- On well-typed operators `compare` never panics (strong induction on the
tree size, jointly with the children loop, which additionally needs the
equal-lengths invariant its caller establishes). -/
lemma compare_total_aux :
    ∀ n : Nat,
      (∀ op1 op2 : Operator, sizeOf op1 ≤ n → wellTyped op1 = true →
        wellTyped op2 = true → (compare op1 op2).isSome = true) ∧
      (∀ l1 l2 : List Operator, sizeOf l1 ≤ n → wellTypedList l1 = true →
        wellTypedList l2 = true → l1.length = l2.length →
        (compareChildren l1 l2).isSome = true) := by
  intro n
  induction n using Nat.strong_induction_on with
  | _ n ih =>
    constructor
    · intro op1 op2 hsz hw1 hw2
      obtain ⟨id1, t1, e1, task1, p1, c1⟩ := op1
      obtain ⟨id2, t2, e2, task2, p2, c2⟩ := op2
      have hw1' : scanPayloadOk t1 p1 = true ∧ wellTypedList c1 = true := by
        simpa [wellTyped, Bool.and_eq_true] using hw1
      have hw2' : scanPayloadOk t2 p2 = true ∧ wellTypedList c2 = true := by
        simpa [wellTyped, Bool.and_eq_true] using hw2
      obtain ⟨hpay1, hkids1⟩ := hw1'
      obtain ⟨hpay2, hkids2⟩ := hw2'
      rw [compare_mk]
      by_cases h1 : t1 ≠ t2 ∨ task1 ≠ task2
      · rw [if_pos h1]; rfl
      · rw [if_neg h1]
        push_neg at h1
        obtain ⟨ht, htask⟩ := h1
        subst ht
        by_cases h2 : c1.length ≠ c2.length
        · rw [if_pos h2]; rfl
        · rw [if_neg h2]
          have hlen : c1.length = c2.length := not_ne_iff.mp h2
          have hszc : sizeOf c1 < sizeOf (Operator.mk id1 t1 e1 task1 p1 c1) := by
            simp only [Operator.mk.sizeOf_spec]
            omega
          have hchildren : (compareChildren c1 c2).isSome = true :=
            (ih (sizeOf c1) (by omega)).2 c1 c2 le_rfl hkids1 hkids2 hlen
          cases t1 with
          | unknown => exact hchildren
          | hashJoin => exact hchildren
          | indexJoin => exact hchildren
          | mergeJoin => exact hchildren
          | selection => exact hchildren
          | projection => exact hchildren
          | tableReader => exact hchildren
          | indexReader => exact hchildren
          | indexLookup => exact hchildren
          | pointGet => exact hchildren
          | tableScan =>
            cases p1 with
            | tableScan tb1 =>
              cases p2 with
              | tableScan tb2 =>
                dsimp only
                by_cases htb : tb1 ≠ tb2
                · rw [if_pos htb]; rfl
                · rw [if_neg htb]; exact hchildren
              | base => simp [scanPayloadOk] at hpay2
              | join jt => simp [scanPayloadOk] at hpay2
              | indexScan a b => simp [scanPayloadOk] at hpay2
            | base => simp [scanPayloadOk] at hpay1
            | join jt => simp [scanPayloadOk] at hpay1
            | indexScan a b => simp [scanPayloadOk] at hpay1
          | indexScan =>
            cases p1 with
            | indexScan tb1 ix1 =>
              cases p2 with
              | indexScan tb2 ix2 =>
                dsimp only
                by_cases htb : tb1 ≠ tb2 ∨ ix1 ≠ ix2
                · rw [if_pos htb]; rfl
                · rw [if_neg htb]; exact hchildren
              | base => simp [scanPayloadOk] at hpay2
              | join jt => simp [scanPayloadOk] at hpay2
              | tableScan a => simp [scanPayloadOk] at hpay2
            | base => simp [scanPayloadOk] at hpay1
            | join jt => simp [scanPayloadOk] at hpay1
            | tableScan a => simp [scanPayloadOk] at hpay1
    · intro l1 l2 hsz hw1 hw2 hlen
      cases l1 with
      | nil =>
        cases l2 with
        | nil => rfl
        | cons b t => rfl
      | cons a l1 =>
        cases l2 with
        | nil => simp at hlen
        | cons b l2 =>
          have hw1' : wellTyped a = true ∧ wellTypedList l1 = true := by
            simpa [wellTypedList, Bool.and_eq_true] using hw1
          have hw2' : wellTyped b = true ∧ wellTypedList l2 = true := by
            simpa [wellTypedList, Bool.and_eq_true] using hw2
          have hcons : sizeOf a < sizeOf (a :: l1) ∧ sizeOf l1 < sizeOf (a :: l1) := by
            simp only [List.cons.sizeOf_spec]
            omega
          have hab : (compare a b).isSome = true :=
            (ih (sizeOf a) (by omega)).1 a b le_rfl hw1'.1 hw2'.1
          obtain ⟨res, hres⟩ := Option.isSome_iff_exists.mp hab
          obtain ⟨r, same⟩ := res
          rw [compareChildren_cons, hres]
          cases same
          · rfl
          · exact (ih (sizeOf l1) (by omega)).2 l1 l2 le_rfl hw1'.2 hw2'.2
              (by simpa using hlen)

/-- Claim C3 counterexample: the claim says every `OpType`/`TaskLocation`/
child-count mismatch yields a reason naming both operators' IDs *and the
differing field*; but the type and task checks share a single message, so
two operators that differ only in `TaskLocation` get the reason
"... have different types", which never mentions the task — the differing
field is not named. -/
theorem compare_task_reason_counterexample :
    compare (.mk "Selection_1" OpTypeSelection 1 .root .base [])
            (.mk "Selection_2" OpTypeSelection 1 .tikv .base []) =
      some ("Selection_1 and Selection_2 have different types", false) ∧
    strContains "Selection_1 and Selection_2 have different types" "task" = false :=
  ⟨rfl, by decide⟩

/-- Claim C3 (amended): `Compare` first compares the SQL texts and on a
mismatch reports the SQL-mismatch reason without ever looking at the trees;
an `OpType`/`TaskLocation` mismatch, a child-count mismatch, an unequal
`Table` on table scans or unequal `Table`/`Index` on index scans each yield
`same = false` with the code's diagnostic reason naming both operators'
IDs (the type and task checks share the one message "... have different
types", even when only the task location differs); the children loop
compares pairwise by position, propagating the first mismatch unchanged
and aborting; and a complete structural match yields `same = true` with an
empty reason. -/
theorem Compare_spec :
    (∀ (sql1 v1 : String) (r1 : Operator) (sql2 v2 : String) (r2 : Operator),
      sql1 ≠ sql2 →
      Compare ⟨sql1, v1, r1⟩ ⟨sql2, v2, r2⟩ = some ("differentiate SQLs", false)) ∧
    (∀ p1 p2 : Plan, p1.SQL = p2.SQL → Compare p1 p2 = compare p1.Root p2.Root) ∧
    (∀ op1 op2 : Operator, op1.opType ≠ op2.opType ∨ op1.task ≠ op2.task →
      compare op1 op2 =
        some (op1.id ++ " and " ++ op2.id ++ " have different types", false)) ∧
    (∀ op1 op2 : Operator, op1.opType = op2.opType → op1.task = op2.task →
      op1.children.length ≠ op2.children.length →
      compare op1 op2 =
        some (op1.id ++ " and " ++ op2.id ++ " have different children lengths", false)) ∧
    (∀ (id1 : String) (e1 : Rat) (task : TaskType) (c1 : List Operator)
        (id2 : String) (e2 : Rat) (c2 : List Operator) (tb1 tb2 : String),
      c1.length = c2.length → tb1 ≠ tb2 →
      compare (.mk id1 OpTypeTableScan e1 task (.tableScan tb1) c1)
              (.mk id2 OpTypeTableScan e2 task (.tableScan tb2) c2) =
        some (id1 ++ ":" ++ tb1 ++ ", " ++ id2 ++ ":" ++ tb2, false)) ∧
    (∀ (id1 : String) (e1 : Rat) (task : TaskType) (c1 : List Operator)
        (id2 : String) (e2 : Rat) (c2 : List Operator) (tb1 ix1 tb2 ix2 : String),
      c1.length = c2.length → tb1 ≠ tb2 ∨ ix1 ≠ ix2 →
      compare (.mk id1 OpTypeIndexScan e1 task (.indexScan tb1 ix1) c1)
              (.mk id2 OpTypeIndexScan e2 task (.indexScan tb2 ix2) c2) =
        some (id1 ++ ":" ++ tb1 ++ ", " ++ id2 ++ ":" ++ tb2, false)) ∧
    (∀ (a b : Operator) (l1 l2 : List Operator) (r : String),
      compare a b = some (r, false) →
      compareChildren (a :: l1) (b :: l2) = some (r, false)) ∧
    (∀ (a b : Operator) (l1 l2 : List Operator) (r : String),
      compare a b = some (r, true) →
      compareChildren (a :: l1) (b :: l2) = compareChildren l1 l2) ∧
    (∀ op1 op2 : Operator, wellTyped op1 = true → wellTyped op2 = true →
      similar op1 op2 = true → compare op1 op2 = some ("", true)) := by
  refine ⟨?_, ?_, ?_, ?_, ?_, ?_, ?_, ?_, compare_of_similar⟩
  · intro sql1 v1 r1 sql2 v2 r2 h
    simp [Compare, h]
  · intro p1 p2 h
    simp [Compare, h]
  · intro op1 op2 h
    obtain ⟨id1, t1, e1, task1, p1, c1⟩ := op1
    obtain ⟨id2, t2, e2, task2, p2, c2⟩ := op2
    simp only [Operator.opType, Operator.task] at h
    simp only [Operator.id]
    rw [compare_mk, if_pos h]
  · intro op1 op2 h1 h2 h3
    obtain ⟨id1, t1, e1, task1, p1, c1⟩ := op1
    obtain ⟨id2, t2, e2, task2, p2, c2⟩ := op2
    simp only [Operator.opType, Operator.task] at h1 h2
    simp only [Operator.children] at h3
    simp only [Operator.id]
    rw [compare_mk, if_neg (by simp [h1, h2]), if_pos h3]
  · intro id1 e1 task c1 id2 e2 c2 tb1 tb2 hlen htb
    rw [compare_mk, if_neg (by simp), if_neg (by simp [hlen])]
    dsimp only [OpTypeTableScan]
    rw [if_pos htb]
  · intro id1 e1 task c1 id2 e2 c2 tb1 ix1 tb2 ix2 hlen htb
    rw [compare_mk, if_neg (by simp), if_neg (by simp [hlen])]
    dsimp only [OpTypeIndexScan]
    rw [if_pos htb]
  · intro a b l1 l2 r h
    rw [compareChildren_cons, h]
  · intro a b l1 l2 r h
    rw [compareChildren_cons, h]

/-- Witness for `Compare_spec` at concrete inputs: differing SQL texts and
a table-scan table rename. -/
theorem Compare_spec_witness :
    Compare ⟨"select 1", V3, .mk "PointGet_1" OpTypePointGet 1 .root .base []⟩
            ⟨"select 2", V3, .mk "PointGet_1" OpTypePointGet 1 .root .base []⟩ =
      some ("differentiate SQLs", false) ∧
    compare (.mk "TableScan_4" OpTypeTableScan 2 .tikv (.tableScan "t1") [])
            (.mk "TableScan_6" OpTypeTableScan 3 .tikv (.tableScan "t2") []) =
      some ("TableScan_4" ++ ":" ++ "t1" ++ ", " ++ "TableScan_6" ++ ":" ++ "t2", false) :=
  ⟨Compare_spec.1 "select 1" V3 _ "select 2" V3 _ (by decide),
   Compare_spec.2.2.2.2.1 "TableScan_4" 2 .tikv [] "TableScan_6" 3 [] "t1" "t2" rfl
     (by decide)⟩

/-- Claim C8: on operator trees satisfying the assemblers' typing guarantee
(`Type() = TableScan` implies dynamic type `TableScanOp`, `Type() =
IndexScan` implies `IndexScanOp`, recursively), `compare` and `Compare` are
total: the type assertions cannot fail, no panic occurs, and a result —
mismatches encoded as a `same = false` verdict with a reason — is always
produced. -/
theorem comparator_total :
    (∀ op1 op2 : Operator, wellTyped op1 = true → wellTyped op2 = true →
      (compare op1 op2).isSome = true) ∧
    (∀ p1 p2 : Plan, wellTyped p1.Root = true → wellTyped p2.Root = true →
      (Compare p1 p2).isSome = true) := by
  have hA : ∀ op1 op2 : Operator, wellTyped op1 = true → wellTyped op2 = true →
      (compare op1 op2).isSome = true :=
    fun op1 op2 => (compare_total_aux (sizeOf op1)).1 op1 op2 le_rfl
  refine ⟨hA, fun p1 p2 h1 h2 => ?_⟩
  unfold Compare
  by_cases h : p1.SQL ≠ p2.SQL
  · rw [if_pos h]; rfl
  · rw [if_neg h]
    exact hA _ _ h1 h2

/-- Witness for `comparator_total` on two structurally different
well-typed trees. -/
theorem comparator_total_witness :
    (compare (.mk "TableReader_5" OpTypeTableReader 1 .root .base
        [.mk "TableScan_4" OpTypeTableScan 2 .tikv (.tableScan "t") []])
      (.mk "IndexReader_3" OpTypeIndexReader 3 .root .base
        [.mk "IndexScan_2" OpTypeIndexScan 4 .tikv (.indexScan "t" "idx") []])).isSome =
      true :=
  comparator_total.1 _ _ (by decide) (by decide)

/-- Claim C10: for two Plans with equal SQL whose trees agree in shape,
`OpType`, `TaskLocation` and in `Table`/`Index` on every scan node — while
differing arbitrarily in `EstimatedRowCount`, `JoinType` and operator `ID`
(none of which `similar` constrains) — `Compare` returns `same = true`
with an empty reason. -/
theorem Compare_verdict_independent :
    ∀ (sql v1 v2 : String) (r1 r2 : Operator),
      wellTyped r1 = true → wellTyped r2 = true → similar r1 r2 = true →
      Compare ⟨sql, v1, r1⟩ ⟨sql, v2, r2⟩ = some ("", true) := by
  intro sql v1 v2 r1 r2 h1 h2 h3
  unfold Compare
  rw [if_neg (by simp)]
  exact compare_of_similar r1 r2 h1 h2 h3

/-- Witness for `Compare_verdict_independent`: same shape and scan tables,
but different IDs, estimated row counts, join types and version tags. -/
theorem Compare_verdict_independent_witness :
    Compare ⟨"select * from t", V3,
        .mk "HashJoin_7" OpTypeHashJoin (31 / 10) .root (.join .inner)
          [.mk "TableScan_1" OpTypeTableScan 10 .tikv (.tableScan "t") [],
           .mk "TableScan_2" OpTypeTableScan 20 .tikv (.tableScan "s") []]⟩
      ⟨"select * from t", V4,
        .mk "HashJoin_9" OpTypeHashJoin 5 .root (.join .leftOuter)
          [.mk "TableScan_3" OpTypeTableScan (99 / 7) .tikv (.tableScan "t") [],
           .mk "TableScan_4" OpTypeTableScan 7 .tikv (.tableScan "s") []]⟩ =
      some ("", true) :=
  Compare_verdict_independent _ _ _ _ _ (by decide) (by decide) (by decide)

end PCC
